import Mathlib

/-!
Verification development for the EspressFlowCV per-frame stream segmentation
and timeline-to-feature pipeline (`espresso_flow_features.py`), shallowly
embedded in Lean.

Conventions of the embedding:
* Python machine floats are idealised as `ℚ`; the floating value NaN, used by
  the source as an "undefined" sentinel, is modelled as `Option.none`.
* External OpenCV routines that the core merely calls (dense optical flow,
  contour extraction) are parameters of the model (`Vision`), and the
  floating-point square root used by `np.std` is a parameter (`NumEnv`);
  no theorem depends on their values beyond explicitly stated, evidently
  true facts (e.g. an all-zero mask has no contours).
* Images are embedded at the region-of-interest level: a decoded frame enters
  the model as its cropped region, already converted to grayscale and HSV by
  the external `cv2.cvtColor` calls (lines 119-125 of the source); the crop
  itself is index arithmetic that no claim touches.
-/

namespace EspressoFlow

/-- `Thresholds` dataclass (source lines 21-35), with its default values in
`defaultThresholds`. -/
structure Thresholds where
  flow_mag_thresh : ℚ
  min_area : ℤ
  min_height : ℤ
  min_aspect : ℚ
  h_lo : ℕ
  h_hi : ℕ
  s_lo : ℕ
  v_lo : ℕ
  v_hi : ℕ
  onset_area_px : ℤ

/-- Default `Thresholds()` values (source lines 24-35): flow 1.2, min_area 150,
min_height 25, min_aspect 1.6, HSV gate (5,30,40,20,230), onset area 300. -/
def defaultThresholds : Thresholds :=
  ⟨6/5, 150, 25, 8/5, 5, 30, 40, 20, 230, 300⟩

/-- A contour candidate as `_best_component` consumes it: the bounding
rectangle `(x, y, w, h)` produced by the external `cv2.boundingRect` and the
integer area `int(cv2.contourArea(c))` (source lines 80-83). -/
structure Candidate where
  x : ℤ
  y : ℤ
  w : ℤ
  h : ℤ
  area : ℤ
deriving DecidableEq

/-- `_component_score` (source lines 70-73):
`center = roi_w/2`, `dist = |cx - center| / max(1.0, roi_w/2)`,
score `= area * (1 - 0.7 * dist)`. -/
def _component_score (cx roi_w : ℚ) (area : ℤ) : ℚ :=
  let center := roi_w / 2
  let dist := |cx - center| / max 1 (roi_w / 2)
  (area : ℚ) * (1 - 7/10 * dist)

/-- Horizontal center of a candidate, `cx = x + w/2.0` (source line 89). -/
def cxOf (c : Candidate) : ℚ := (c.x : ℚ) + (c.w : ℚ) / 2

/-- The normalized horizontal offset used inside `_component_score`. -/
def distOf (roi_w : ℚ) (c : Candidate) : ℚ :=
  |cxOf c - roi_w / 2| / max 1 (roi_w / 2)

/-- Score of a candidate as computed at source line 90. -/
def scoreOf (roi_w : ℚ) (c : Candidate) : ℚ :=
  _component_score (cxOf c) roi_w c.area

/-- The loop body of `_best_component` (source lines 79-93): running `best`
and `best_score` accumulators, filters applied in source order, update when
`score > best_score` (strict, so the first of equal-score candidates wins). -/
def bestGo (thr : Thresholds) (roi_w : ℚ) :
    List Candidate → Option Candidate → ℚ → Option Candidate
  | [], best, _ => best
  | c :: rest, best, bs =>
      if c.h < thr.min_height ∨ c.w < 2 then
        bestGo thr roi_w rest best bs
      else if c.area < thr.min_area then
        bestGo thr roi_w rest best bs
      else if (c.h : ℚ) / max 1 (c.w : ℚ) < thr.min_aspect then
        bestGo thr roi_w rest best bs
      else if bs < scoreOf roi_w c then
        bestGo thr roi_w rest (some c) (scoreOf roi_w c)
      else
        bestGo thr roi_w rest best bs

/-- `_best_component` (source lines 76-94): `best = None`, `best_score = 0.0`,
then the loop `bestGo`. -/
def _best_component (contours : List Candidate) (roi_w : ℚ)
    (thr : Thresholds) : Option Candidate :=
  bestGo thr roi_w contours none 0

/-- A candidate survives the size/shape filters of `_best_component`
(source lines 81-87): height ≥ min_height, width ≥ 2, area ≥ min_area and
aspect `h / max(1.0, w)` ≥ min_aspect. -/
def survives (thr : Thresholds) (c : Candidate) : Prop :=
  thr.min_height ≤ c.h ∧ 2 ≤ c.w ∧ thr.min_area ≤ c.area ∧
    thr.min_aspect ≤ (c.h : ℚ) / max 1 (c.w : ℚ)

instance (thr : Thresholds) (c : Candidate) : Decidable (survives thr c) := by
  unfold survives
  infer_instance

/-- Modelled from the spec: "among surviving candidates, pick the one
maximizing `area * (1 - 0.7 * normalized distance)`; ties (equal score)
resolve to the first candidate encountered in enumeration order". Stated as
a recursive first-maximum selection; compared with `_best_component`. -/
def selectBest (thr : Thresholds) (roi_w : ℚ) : List Candidate → Option Candidate
  | [] => none
  | c :: rest =>
      if survives thr c then
        match selectBest thr roi_w rest with
        | none => some c
        | some d => if scoreOf roi_w c < scoreOf roi_w d then some d else some c
      else selectBest thr roi_w rest

/-- `FrameStats` dataclass (source lines 45-54). `hue_med`/`val_med` are
`Option ℚ` with `none` modelling the floating NaN sentinel. -/
structure FrameStats where
  stream_found : Bool
  area : ℤ
  width : ℤ
  height : ℤ
  cx : ℚ
  cy : ℚ
  hue_med : Option ℚ
  val_med : Option ℚ
deriving DecidableEq

/-- A grayscale pixel buffer (the segmenter's `prev_gray_roi`): dimensions
plus a pixel function. -/
structure GrayBuf where
  h : ℕ
  w : ℕ
  pix : ℕ → ℕ → ℕ

/-- A binary mask over the region (a 0/255 `uint8` image in the source;
`true` models a nonzero pixel). -/
structure Mask where
  h : ℕ
  w : ℕ
  pix : ℕ → ℕ → Bool

/-- One HSV pixel in OpenCV ranges (H 0..180, S 0..255, V 0..255). -/
structure HSVPix where
  hch : ℕ
  sch : ℕ
  vch : ℕ

/-- A decoded frame as the segmenter sees it after cropping to the region and
colour conversion (source lines 119-125): region dimensions, the grayscale
channel and the HSV channels. -/
structure RoiFrame where
  h : ℕ
  w : ℕ
  gray : ℕ → ℕ → ℕ
  hsv : ℕ → ℕ → HSVPix

/-- The external OpenCV routines the segmenter calls, as parameters of the
model: the Farneback dense-flow magnitude field `sqrt(fx²+fy²)`
(source lines 130-133) and external-contour extraction
`cv2.findContours(..., RETR_EXTERNAL, CHAIN_APPROX_SIMPLE)` viewed through
`cv2.boundingRect`/`cv2.contourArea` (source lines 146, 80, 83). -/
structure Vision where
  flowMag : GrayBuf → GrayBuf → (ℕ → ℕ → ℚ)
  findContours : Mask → List Candidate

/-- The external floating-point square root used by `np.std`. -/
structure NumEnv where
  sqrt : ℚ → ℚ

/-- Segmenter state: `self.prev_gray_roi`, `None` before the first call
(source lines 113-116). -/
structure SegState where
  prev : Option GrayBuf

/-- `cv2.dilate` with the 3×5 rectangular structuring element of source
line 138 (width 3, height 5, centred anchor): a pixel is set iff some mask
pixel in the 3×5 window around it is set; out-of-bounds neighbours read as
unset. -/
def dilate3x5 (m : Mask) : Mask :=
  ⟨m.h, m.w, fun i j =>
    (List.range 5).any fun a =>
      (List.range 3).any fun b =>
        decide (2 ≤ i + a) && decide (1 ≤ j + b) &&
        decide (i + a - 2 < m.h) && decide (j + b - 1 < m.w) &&
        m.pix (i + a - 2) (j + b - 1)⟩

/-- `cv2.inRange(hsv, (h_lo, s_lo, v_lo), (h_hi, 255, v_hi))`
(source lines 140-142): inclusive bounds on each channel. -/
def inRangeHSV (thr : Thresholds) (p : HSVPix) : Bool :=
  decide (thr.h_lo ≤ p.hch) && decide (p.hch ≤ thr.h_hi) &&
  decide (thr.s_lo ≤ p.sch) && decide (p.sch ≤ 255) &&
  decide (thr.v_lo ≤ p.vch) && decide (p.vch ≤ thr.v_hi)

/-- The foreground (stream) mask of one `segment` call (source lines
127-144): flow magnitude is all-zero on the first call or when the stored
region's shape differs from the current one, else the external flow field;
the motion mask thresholds it at `flow_mag_thresh` and is dilated; the colour
mask gates HSV; the stream mask is their pixel-wise AND. -/
def streamMask (ext : Vision) (thr : Thresholds) (st : SegState)
    (f : RoiFrame) : Mask :=
  let flow : ℕ → ℕ → ℚ :=
    match st.prev with
    | none => fun _ _ => 0
    | some p =>
        if p.h = f.h ∧ p.w = f.w then ext.flowMag p ⟨f.h, f.w, f.gray⟩
        else fun _ _ => 0
  let motion := dilate3x5 ⟨f.h, f.w, fun i j => decide (thr.flow_mag_thresh < flow i j)⟩
  ⟨f.h, f.w, fun i j => motion.pix i j && inRangeHSV thr (f.hsv i j)⟩

/-- The not-found statistics record returned at source line 150:
`FrameStats(False, 0, 0, 0, -1, -1, nan, nan)`. -/
def notFoundStats : FrameStats :=
  ⟨false, 0, 0, 0, -1, -1, none, none⟩

/-- `np.median` over `ℚ`: sort, middle element if the length is odd, mean of
the two middle elements if even (0 on the empty list, which the source never
reaches because callers guard emptiness). -/
def median (l : List ℚ) : ℚ :=
  let s := l.mergeSort (fun a b => decide (a ≤ b))
  let n := l.length
  if n % 2 = 1 then s.getD (n / 2) 0
  else (s.getD (n / 2 - 1) 0 + s.getD (n / 2) 0) / 2

/-- All region coordinates `(i, j)`, row-major. -/
def coords (h w : ℕ) : List (ℕ × ℕ) :=
  (List.range h).flatMap fun i => (List.range w).map fun j => (i, j)

/-- Membership of a coordinate in the filled rectangle drawn by
`cv2.rectangle(comp_mask, (x, y), (x+w, y+h), 255, -1)` (source line 155):
both corners inclusive. -/
def inRect (c : Candidate) (p : ℕ × ℕ) : Bool :=
  decide (c.y ≤ (p.1 : ℤ)) && decide ((p.1 : ℤ) ≤ c.y + c.h) &&
  decide (c.x ≤ (p.2 : ℤ)) && decide ((p.2 : ℤ) ≤ c.x + c.w)

/-- `EspressoStreamSegmenter.segment` (source lines 118-162). Returns the
per-frame statistics, the stream mask and the updated state (the source
mutates `self.prev_gray_roi` at line 135; the model threads it explicitly).
The median hue/value are taken over the pixels of the winning bounding
rectangle intersected with the stream mask (source lines 154-160), `none`
(NaN) when that set is empty. The source raises nowhere in this method:
the model is a total function. -/
def segment (ext : Vision) (thr : Thresholds) (st : SegState)
    (f : RoiFrame) : FrameStats × Mask × SegState :=
  let sm := streamMask ext thr st f
  let st2 : SegState := ⟨some ⟨f.h, f.w, f.gray⟩⟩
  match _best_component (ext.findContours sm) (f.w : ℚ) thr with
  | none => (notFoundStats, sm, st2)
  | some c =>
      let compPix := (coords f.h f.w).filter fun p => inRect c p && sm.pix p.1 p.2
      let hue_med :=
        if compPix = [] then none
        else some (median (compPix.map fun p => ((f.hsv p.1 p.2).hch : ℚ)))
      let val_med :=
        if compPix = [] then none
        else some (median (compPix.map fun p => ((f.hsv p.1 p.2).vch : ℚ)))
      (⟨true, c.area, c.w, c.h, cxOf c, (c.y : ℚ) + (c.h : ℚ) / 2, hue_med, val_med⟩,
        sm, st2)

/-- `DebugConfig` dataclass (source lines 38-42). -/
structure DebugConfig where
  save_overlay_video : Bool
  overlay_fps : ℤ
  save_kymograph : Bool

/-- The five per-frame series accumulated by `process_frames_folder`
(source line 302) plus the kymograph column vectors (source line 303). -/
structure Timelines where
  width : List ℤ
  area : List ℤ
  cx : List ℚ
  hue : List (Option ℚ)
  val : List (Option ℚ)
  cols : List (List ℚ)

/-- The kymograph column vector of one frame (source lines 324-326):
`np.sum(255 - gray, axis=0)` over the region. -/
def colVec (f : RoiFrame) : List ℚ :=
  (List.range f.w).map fun j =>
    ((List.range f.h).map fun i => (255 : ℚ) - (f.gray i j : ℚ)).sum

/-- The accumulation loop of `process_frames_folder` (source lines 306-326):
each list element is one frame file's decode result (`none` when `cv2.imread`
returned `None`, which the loop skips with `continue`); every decoded frame
is segmented with the threaded segmenter state and appends exactly one entry
to each of the five series, plus one column vector when
`debug.save_kymograph` is set. The debug overlay writing (source lines
329-347) is pure I/O and is not modelled. -/
def accumulate (ext : Vision) (thr : Thresholds) (debug : DebugConfig) :
    List (Option RoiFrame) → SegState → Timelines × SegState
  | [], st => (⟨[], [], [], [], [], []⟩, st)
  | none :: rest, st => accumulate ext thr debug rest st
  | some f :: rest, st =>
      let r := segment ext thr st f
      let res := accumulate ext thr debug rest r.2.2
      let tl := res.1
      (⟨r.1.width :: tl.width, r.1.area :: tl.area, r.1.cx :: tl.cx,
        r.1.hue_med :: tl.hue, r.1.val_med :: tl.val,
        if debug.save_kymograph then colVec f :: tl.cols else tl.cols⟩,
        res.2)

/-- `_first_onset` (source lines 169-173): index of the first element with
`a >= px_thresh`, `None` if there is none. -/
def _first_onset : List ℤ → ℤ → Option ℕ
  | [], _ => none
  | a :: rest, t =>
      if t ≤ a then some 0 else (_first_onset rest t).map (· + 1)

/-- The post-onset restriction of a series (source lines 206-209): drop the
prefix before the onset index when an onset exists, else the full series. -/
def postFrom (onset : Option ℕ) (l : List α) : List α :=
  match onset with
  | some i => l.drop i
  | none => l

/-- `np.mean` over `ℚ` (callers guard the empty case). -/
def meanQ (l : List ℚ) : ℚ := l.sum / (l.length : ℚ)

/-- The population variance `mean((x - mean x)²)`; `np.std` is its square
root via the external `NumEnv.sqrt`. -/
def varQ (l : List ℚ) : ℚ :=
  (l.map fun x => (x - meanQ l) ^ 2).sum / (l.length : ℚ)

/-- `_cv` (source lines 185-188): `std / (mean + 1e-6)`, with mean and std
taken as 0 on the empty series. -/
def _cv (env : NumEnv) (x : List ℚ) : ℚ :=
  let mu := if x = [] then 0 else meanQ x
  let sd := if x = [] then 0 else env.sqrt (varQ x)
  sd / (mu + 1 / 1000000)

/-- Minimum of a series, `np.min` (0 on empty, unreached by callers). -/
def rowMin : List ℚ → ℚ
  | [] => 0
  | x :: xs => xs.foldl min x

/-- Maximum of a series, `np.max` (0 on empty, unreached by callers). -/
def rowMax : List ℚ → ℚ
  | [] => 0
  | x :: xs => xs.foldl max x

/-- `_slope` (source lines 176-182): 0 for fewer than two samples, else the
slope component of the least-squares fit of `y` against `x = 0..n-1`
computed by `np.linalg.lstsq`; for `n ≥ 2` distinct abscissae that solution
is unique and equals the closed form
`(n·Σ x·y − Σx·Σy) / (n·Σ x² − (Σx)²)` written here. -/
def _slope (y : List ℚ) : ℚ :=
  if y.length < 2 then 0
  else
    let n : ℚ := y.length
    let xs : List ℚ := (List.range y.length).map fun i => (i : ℚ)
    let sx := xs.sum
    let sxx := (xs.map fun v => v ^ 2).sum
    let sy := y.sum
    let sxy := ((xs.zip y).map fun p => p.1 * p.2).sum
    (n * sxy - sx * sy) / (n * sxx - sx ^ 2)

/-- `np.nanmedian`: the median of the non-NaN entries, NaN (`none`) when no
entry is a number. -/
def nanmedian (l : List (Option ℚ)) : Option ℚ :=
  let xs := l.filterMap id
  if xs = [] then none else some (median xs)

/-- `thirds_delta` (source lines 219-225): NaN for fewer than 9 samples,
else `nanmedian` of the last `n // 3` entries minus `nanmedian` of the first
`n // 3` entries (NaN when either side is NaN). -/
def thirds_delta (arr : List (Option ℚ)) : Option ℚ :=
  if arr.length < 9 then none
  else
    let n := arr.length
    match nanmedian (arr.take (n / 3)), nanmedian (arr.drop (n - n / 3)) with
    | some a, some b => some (b - a)
    | _, _ => none

/-- The transition count of a boolean series: the number of adjacent unequal
pairs. This is `np.sum(np.abs(np.diff(onoff)) == 1)` for the 0/1 series
`onoff` (source line 232). -/
def countTransitions (l : List Bool) : ℕ :=
  (l.zip l.tail).countP fun p => p.1 != p.2

/-- Continuity statistic (source line 211):
`float(np.mean(A2 > onset_area_px)) if len(A2) else 0.0` — the mean of the
strict above-threshold indicator, i.e. the fraction of entries strictly
greater than `t`. -/
def contOf (t : ℤ) (l : List ℤ) : ℚ :=
  if l.length = 0 then 0
  else ((l.countP fun a => decide (t < a)) : ℚ) / (l.length : ℚ)

/-- Mean width (source line 213): `np.mean(W2)` guarded by emptiness. -/
def meanWOf (l : List ℤ) : ℚ :=
  if l = [] then 0 else meanQ (l.map fun z => (z : ℚ))

/-- Width coefficient of variation (source line 214), guarded by emptiness. -/
def cvWOf (env : NumEnv) (l : List ℤ) : ℚ :=
  if l = [] then 0 else _cv env (l.map fun z => (z : ℚ))

/-- Width amplitude (source line 215): `np.max(W2) - np.min(W2)`, guarded. -/
def ampWOf (l : List ℤ) : ℚ :=
  if l = [] then 0
  else rowMax (l.map fun z => (z : ℚ)) - rowMin (l.map fun z => (z : ℚ))

/-- Width slope (source line 216): `_slope(W2)`, guarded by emptiness. -/
def slopeWOf (l : List ℤ) : ℚ :=
  if l = [] then 0 else _slope (l.map fun z => (z : ℚ))

/-- Centroid jitter (source line 217): `np.std(CX2)`, guarded by emptiness. -/
def jitterOf (env : NumEnv) (l : List ℚ) : ℚ :=
  if l = [] then 0 else env.sqrt (varQ l)

/-- Flicker statistic (source lines 230-234): for more than 3 samples, the
number of transitions of the strict above-threshold 0/1 indicator
(`np.sum(np.abs(np.diff(onoff)) == 1)`), else 0. -/
def flickerOf (t : ℤ) (l : List ℤ) : ℚ :=
  if 3 < l.length then
    (countTransitions (l.map fun a => decide (t < a)) : ℚ)
  else 0

/-- The feature dictionary returned by `extract_features_from_timelines`
(source lines 236-247); `Option ℚ` fields model NaN-able values. -/
structure Features where
  onset_time_s : Option ℚ
  continuity : ℚ
  mean_width : ℚ
  cv_width : ℚ
  amp_width : ℚ
  slope_width : ℚ
  jitter_cx : ℚ
  delta_val : Option ℚ
  delta_hue : Option ℚ
  flicker : ℚ
deriving DecidableEq

/-- `extract_features_from_timelines` (source lines 191-247). The onset is
`_first_onset(area_t, Thresholds().onset_area_px)` — the freshly constructed
default thresholds, so 300 regardless of the pipeline's thresholds.
Every statistic operates on the post-onset restriction of its series.
Widths and areas are integer series; the source's `float32` casts are the
identity on them in the rational idealisation. -/
def extract_features_from_timelines (env : NumEnv)
    (width_t area_t : List ℤ) (cx_t : List ℚ)
    (hue_t val_t : List (Option ℚ)) (fps : ℤ) : Features :=
  let onset := _first_onset area_t defaultThresholds.onset_area_px
  let onset_time := onset.map fun i => (i : ℚ) / (fps : ℚ)
  let W2 := postFrom onset width_t
  let A2 := postFrom onset area_t
  let CX2 := postFrom onset cx_t
  let H2 := postFrom onset hue_t
  let V2 := postFrom onset val_t
  ⟨onset_time, contOf defaultThresholds.onset_area_px A2, meanWOf W2,
    cvWOf env W2, ampWOf W2, slopeWOf W2, jitterOf env CX2,
    thirds_delta V2, thirds_delta H2,
    flickerOf defaultThresholds.onset_area_px A2⟩

/-- First branch condition of `simple_rule_classifier` (source line 257):
`(cont < 0.55 and mean_w < 6) or (val_delta is a number and val_delta > -5)`.
`isNum…` combinators below model the `is not None and not np.isnan` guards
on NaN-able values. -/
def cond1 (F : Features) : Bool :=
  (decide (F.continuity < 11/20) && decide (F.mean_width < 6)) ||
    (match F.delta_val with
     | none => false
     | some d => decide (-5 < d))

/-- Second branch condition (source line 259):
`val_delta is a number and val_delta < -25, and slope_w < -0.02`. -/
def cond2 (F : Features) : Bool :=
  (match F.delta_val with
   | none => false
   | some d => decide (d < -25)) && decide (F.slope_width < -(1/50))

/-- Third branch condition (source line 261):
`cont >= 0.7 and cv_w < 0.35 and mean_w >= 6`. -/
def cond3 (F : Features) : Bool :=
  decide (7/10 ≤ F.continuity) && decide (F.cv_width < 7/20) &&
    decide (6 ≤ F.mean_width)

/-- `simple_rule_classifier` (source lines 250-264): the fixed-order
threshold cascade, first match wins, `"mid"` otherwise. -/
def simple_rule_classifier (F : Features) : String :=
  if cond1 F then "underextracted"
  else if cond2 F then "overextracted"
  else if cond3 F then "perfect_or_mid"
  else "mid"

/-- `uint8` conversion of a value in `[0, 255]`: `astype(np.uint8)`
truncates toward zero, i.e. floor on non-negative values. -/
def toU8 (q : ℚ) : ℕ := (⌊q⌋).toNat

/-- Per-row min-max normalisation of `_make_kymograph` (source lines
277-280): `(v - min) / max(1e-6, max - min) * 255`, cast to `uint8`. -/
def normRow (r : List ℚ) : List ℕ :=
  let m := rowMin r
  let M := rowMax r
  r.map fun v => toU8 ((v - m) / max (1 / 1000000) (M - m) * 255)

/-- `_make_kymograph` (source lines 271-280): a fixed 10×10 zero image on
zero input rows, else one independently normalised row per input vector. -/
def _make_kymograph (cols : List (List ℚ)) : List (List ℕ) :=
  if cols = [] then List.replicate 10 (List.replicate 10 0)
  else cols.map normRow

/-- `process_frames_folder` (source lines 286-360), its pure skeleton:
the input list holds one entry per discovered frame file (the sorted `.jpg`
listing, an external directory read), each entry being the frame's decode
result. An empty listing raises `FileNotFoundError("No .jpg frames found…")`
(source lines 294-295), modelled as `Except.error`; otherwise the listing is
truncated to `int(fps * max_seconds)` files, accumulated, reduced to
features, and labelled by the rule classifier. Saving the kymograph image
and the overlay video are I/O side effects without influence on the returned
features and are not modelled. -/
def process_frames_folder (ext : Vision) (env : NumEnv)
    (files : List (Option RoiFrame)) (fps : ℤ) (max_seconds : ℚ)
    (thr : Thresholds) (debug : DebugConfig) :
    Except String (Features × String) :=
  if files.isEmpty then Except.error "No .jpg frames found"
  else
    let files2 := files.take (Int.toNat ⌊(fps : ℚ) * max_seconds⌋)
    let tl := (accumulate ext thr debug files2 ⟨none⟩).1
    let feats := extract_features_from_timelines env tl.width tl.area tl.cx
      tl.hue tl.val fps
    Except.ok (feats, simple_rule_classifier feats)

/-- A concrete instantiation of the external vision routines, used to
evaluate the model on closed inputs: the zero flow field and the (correct)
empty contour list for any mask a closed test feeds it. -/
def ext0 : Vision := ⟨fun _ _ => fun _ _ => 0, fun _ => []⟩

/-- A concrete numeric environment for closed evaluations. -/
def env0 : NumEnv := ⟨fun _ => 0⟩

/-- Modelled from the spec (claim wording, for comparison): the fraction of
entries of a series that are `≥ t` (0 on the empty series). -/
def fracGE (l : List ℤ) (t : ℤ) : ℚ :=
  if l.length = 0 then 0 else ((l.countP fun a => decide (t ≤ a)) : ℚ) / (l.length : ℚ)

/-- The branch semantics of the classifier cascade, as an explicit
first-match-wins relation: label `l` is assigned exactly when its branch
condition holds and no earlier branch condition does. -/
def cascadeAssigns (F : Features) (l : String) : Prop :=
  (cond1 F = true ∧ l = "underextracted") ∨
  (cond1 F = false ∧ cond2 F = true ∧ l = "overextracted") ∨
  (cond1 F = false ∧ cond2 F = false ∧ cond3 F = true ∧ l = "perfect_or_mid") ∨
  (cond1 F = false ∧ cond2 F = false ∧ cond3 F = false ∧ l = "mid")

/-! ### Helper lemmas -/

/-- A boolean series all of whose entries are equal has no transitions. -/
lemma countTransitions_of_const (l : List Bool) (b : Bool)
    (h : ∀ x ∈ l, x = b) : countTransitions l = 0 := by
  induction l with
  | nil => rfl
  | cons x rest ih =>
    cases rest with
    | nil => rfl
    | cons y rest2 =>
      have hx : x = b := h x (by simp)
      have hy : y = b := h y (by simp)
      have hrest : countTransitions (y :: rest2) = 0 :=
        ih fun z hz => h z (List.mem_cons_of_mem _ hz)
      subst hx
      subst hy
      unfold countTransitions at hrest ⊢
      simp only [List.tail_cons] at hrest ⊢
      rw [List.zip_cons_cons, List.countP_cons]
      simp [hrest]

/-- `contOf` is a fraction in `[0, 1]`. -/
lemma contOf_bounds (t : ℤ) (l : List ℤ) :
    0 ≤ contOf t l ∧ contOf t l ≤ 1 := by
  unfold contOf
  by_cases h : l.length = 0
  · simp [h]
  · have hlen : 0 < (l.length : ℚ) := by
      exact_mod_cast Nat.pos_of_ne_zero h
    constructor
    · simp only [if_neg h]
      positivity
    · simp only [if_neg h]
      rw [div_le_one hlen]
      exact_mod_cast l.countP_le_length _

/-- A loop over candidates none of which survives the filters leaves the
running best unchanged. -/
lemma bestGo_of_no_survivor (thr : Thresholds) (roi_w : ℚ)
    (l : List Candidate) (best : Option Candidate) (bs : ℚ)
    (h : ∀ c ∈ l, ¬ survives thr c) : bestGo thr roi_w l best bs = best := by
  induction l generalizing best bs with
  | nil => rfl
  | cons c rest ih =>
    have hc := h c (by simp)
    have hrest : ∀ d ∈ rest, ¬ survives thr d := fun d hd => h d (by simp [hd])
    unfold bestGo
    split_ifs with h1 h2 h3 h4
    · exact ih _ _ hrest
    · exact ih _ _ hrest
    · exact ih _ _ hrest
    · exfalso
      push_neg at h1
      exact hc ⟨h1.1, h1.2, not_lt.mp h2, not_lt.mp h3⟩
    · exfalso
      push_neg at h1
      exact hc ⟨h1.1, h1.2, not_lt.mp h2, not_lt.mp h3⟩

/-! ### Claim theorems -/

/-- C6: for every decodable frame on which no contour candidate survives the
size/shape filters, `segment` returns (as a total function, raising nothing)
a statistics record with `stream_found = false`, area, width and height 0,
centroid `(-1, -1)` and NaN (`none`) hue and brightness medians. -/
theorem c6_no_detection_sentinel (ext : Vision) (thr : Thresholds)
    (st : SegState) (f : RoiFrame)
    (hns : ∀ c ∈ ext.findContours (streamMask ext thr st f), ¬ survives thr c) :
    (segment ext thr st f).1 = ⟨false, 0, 0, 0, -1, -1, none, none⟩ := by
  have hb : _best_component (ext.findContours (streamMask ext thr st f))
      (f.w : ℚ) thr = none :=
    bestGo_of_no_survivor thr _ _ none 0 hns
  simp [segment, hb, notFoundStats]

/-- Witness for C6 at a concrete 1×1 frame and the concrete vision
environment `ext0`, whose contour list is empty. -/
theorem c6_witness :
    (segment ext0 defaultThresholds ⟨none⟩
        ⟨1, 1, fun _ _ => 0, fun _ _ => ⟨0, 0, 0⟩⟩).1 =
      ⟨false, 0, 0, 0, -1, -1, none, none⟩ := by
  refine c6_no_detection_sentinel ext0 defaultThresholds ⟨none⟩ _ ?_
  intro c hc
  simp [ext0] at hc

/-- C9: after the accumulator processes any frame sequence, the five
timelines (width, area, centroid-x, hue, brightness) all have length equal
to the number of frames that decoded (`some` entries); frames that failed to
decode (`none` entries) are skipped, never padded. -/
theorem c9_timeline_lengths (ext : Vision) (thr : Thresholds)
    (debug : DebugConfig) (files : List (Option RoiFrame)) (st : SegState) :
    (accumulate ext thr debug files st).1.width.length =
        files.countP (fun o => o.isSome) ∧
      (accumulate ext thr debug files st).1.area.length =
        files.countP (fun o => o.isSome) ∧
      (accumulate ext thr debug files st).1.cx.length =
        files.countP (fun o => o.isSome) ∧
      (accumulate ext thr debug files st).1.hue.length =
        files.countP (fun o => o.isSome) ∧
      (accumulate ext thr debug files st).1.val.length =
        files.countP (fun o => o.isSome) := by
  induction files generalizing st with
  | nil => simp [accumulate]
  | cons o rest ih =>
    cases o with
    | none =>
      simpa [accumulate, List.countP_cons] using ih st
    | some f =>
      have h := ih (segment ext thr st f).2.2
      simp only [accumulate, List.countP_cons]
      simp only [Option.isSome_some, if_pos]
      constructor
      · simpa using h.1
      constructor
      · simpa using h.2.1
      constructor
      · simpa using h.2.2.1
      constructor
      · simpa using h.2.2.2.1
      · simpa using h.2.2.2.2

/-- C8: the rule-based classifier is a pure, deterministic function of the
feature record — equal inputs give equal labels — and the four branches,
taken in their fixed order, assign exactly one label to every input, drawn
from {underextracted, overextracted, perfect_or_mid, mid}. -/
theorem c8_classifier_pure_exhaustive (F G : Features) (h : F = G) :
    simple_rule_classifier F = simple_rule_classifier G ∧
      cascadeAssigns F (simple_rule_classifier F) ∧
      (∃! l : String, cascadeAssigns F l) ∧
      (simple_rule_classifier F = "underextracted" ∨
        simple_rule_classifier F = "overextracted" ∨
        simple_rule_classifier F = "perfect_or_mid" ∨
        simple_rule_classifier F = "mid") := by
  subst h
  refine ⟨rfl, ?_, ?_, ?_⟩ <;>
    cases hc1 : cond1 F <;> cases hc2 : cond2 F <;> cases hc3 : cond3 F <;>
      simp [simple_rule_classifier, cascadeAssigns, hc1, hc2, hc3]

/-- Witness for C8 at a concrete feature record. -/
theorem c8_witness :
    simple_rule_classifier
        ⟨some 1, 9/10, 20, 1/10, 0, -1/20, 0, some (-30), none, 0⟩ =
      simple_rule_classifier
        ⟨some 1, 9/10, 20, 1/10, 0, -1/20, 0, some (-30), none, 0⟩ ∧
      cascadeAssigns ⟨some 1, 9/10, 20, 1/10, 0, -1/20, 0, some (-30), none, 0⟩
        (simple_rule_classifier
          ⟨some 1, 9/10, 20, 1/10, 0, -1/20, 0, some (-30), none, 0⟩) := by
  have h := c8_classifier_pure_exhaustive
    ⟨some 1, 9/10, 20, 1/10, 0, -1/20, 0, some (-30), none, 0⟩
    ⟨some 1, 9/10, 20, 1/10, 0, -1/20, 0, some (-30), none, 0⟩ rfl
  exact ⟨h.1, h.2.1⟩

/-- C1 (amended): when an onset is found, the continuity feature equals the
fraction of post-onset frames whose area is STRICTLY greater than the
flow-present threshold (the source compares `A2 > 300`, while the claim's
`≥` fails at areas exactly equal to 300); for every input it lies in
`[0, 1]`, and it is 0 when the post-onset series is empty. -/
theorem c1_continuity_strict_fraction (env : NumEnv) (w a : List ℤ)
    (cx : List ℚ) (h v : List (Option ℚ)) (fps : ℤ) :
    (∀ i, _first_onset a defaultThresholds.onset_area_px = some i →
      (extract_features_from_timelines env w a cx h v fps).continuity =
        contOf defaultThresholds.onset_area_px (a.drop i)) ∧
    0 ≤ (extract_features_from_timelines env w a cx h v fps).continuity ∧
    (extract_features_from_timelines env w a cx h v fps).continuity ≤ 1 ∧
    (postFrom (_first_onset a defaultThresholds.onset_area_px) a = [] →
      (extract_features_from_timelines env w a cx h v fps).continuity = 0) := by
  have hfield : (extract_features_from_timelines env w a cx h v fps).continuity =
      contOf defaultThresholds.onset_area_px
        (postFrom (_first_onset a defaultThresholds.onset_area_px) a) := rfl
  refine ⟨?_, ?_, ?_, ?_⟩
  · intro i hi
    rw [hfield, hi]
    rfl
  · rw [hfield]
    exact (contOf_bounds _ _).1
  · rw [hfield]
    exact (contOf_bounds _ _).2
  · intro h0
    rw [hfield, h0]
    rfl

/-- Witness for C1 (amended) at the timeline `[0, 400, 100]`: onset at
index 1, continuity = fraction of `[400, 100]` strictly above 300. -/
theorem c1_witness :
    (extract_features_from_timelines env0 [1, 2, 3] [0, 400, 100] [0, 0, 0]
        [none, none, none] [none, none, none] 30).continuity =
      contOf defaultThresholds.onset_area_px
        (([0, 400, 100] : List ℤ).drop 1) := by
  exact (c1_continuity_strict_fraction env0 [1, 2, 3] [0, 400, 100] [0, 0, 0]
    [none, none, none] [none, none, none] 30).1 1 (by decide)

/-- C1 counterexample: on the single-frame timeline `[300]` the onset is at
index 0 (the onset comparison is `≥`), the fraction of post-onset frames
with area `≥ 300` is 1, yet the computed continuity is 0 — the claim's `≥`
reading of the continuity fraction is false on the code. -/
theorem c1_claim_counterexample :
    _first_onset [300] defaultThresholds.onset_area_px = some 0 ∧
    fracGE (postFrom (_first_onset [300] defaultThresholds.onset_area_px)
        [300]) defaultThresholds.onset_area_px = 1 ∧
    (extract_features_from_timelines env0 [5] [300] [1] [none] [none]
        30).continuity = 0 := by
  refine ⟨by decide, ?_, ?_⟩
  · norm_num [fracGE, postFrom, _first_onset, defaultThresholds]
  · norm_num [extract_features_from_timelines, contOf, postFrom,
      _first_onset, defaultThresholds]

/-- C4 (amended): the flicker feature counts the transitions of the binary
strict above-threshold indicator across post-onset frames when more than 3
post-onset samples exist, else it is 0; and it is 0 whenever that indicator
is constant over the post-onset frames — in particular for a series that
never re-crosses the threshold after onset. (A strictly monotonic series can
still cross the threshold once after onset and flicker 1, which is the
correction to the claim.) -/
theorem c4_flicker_transitions (env : NumEnv) (w a : List ℤ) (cx : List ℚ)
    (h v : List (Option ℚ)) (fps : ℤ) :
    (extract_features_from_timelines env w a cx h v fps).flicker =
      flickerOf defaultThresholds.onset_area_px
        (postFrom (_first_onset a defaultThresholds.onset_area_px) a) ∧
    ((∀ x ∈ postFrom (_first_onset a defaultThresholds.onset_area_px) a,
        defaultThresholds.onset_area_px < x) →
      (extract_features_from_timelines env w a cx h v fps).flicker = 0) ∧
    ((∀ x ∈ postFrom (_first_onset a defaultThresholds.onset_area_px) a,
        ¬ defaultThresholds.onset_area_px < x) →
      (extract_features_from_timelines env w a cx h v fps).flicker = 0) := by
  have hfield : (extract_features_from_timelines env w a cx h v fps).flicker =
      flickerOf defaultThresholds.onset_area_px
        (postFrom (_first_onset a defaultThresholds.onset_area_px) a) := rfl
  refine ⟨hfield, ?_, ?_⟩
  · intro hall
    rw [hfield]
    unfold flickerOf
    split_ifs with hlen
    · rw [countTransitions_of_const _ true]
      · rfl
      · intro x hx
        rcases List.mem_map.mp hx with ⟨z, hz, rfl⟩
        simpa using hall z hz
    · rfl
  · intro hall
    rw [hfield]
    unfold flickerOf
    split_ifs with hlen
    · rw [countTransitions_of_const _ false]
      · rfl
      · intro x hx
        rcases List.mem_map.mp hx with ⟨z, hz, rfl⟩
        simpa using hall z hz
    · rfl

/-- Witness for C4 (amended): on `[0, 0, 500, 600, 700, 650]` the post-onset
series `[500, 600, 700, 650]` stays strictly above the threshold, so flicker
is 0. -/
theorem c4_witness :
    (extract_features_from_timelines env0 [1, 1, 1, 1, 1, 1]
        [0, 0, 500, 600, 700, 650] [0, 0, 0, 0, 0, 0]
        [none, none, none, none, none, none]
        [none, none, none, none, none, none] 30).flicker = 0 := by
  exact (c4_flicker_transitions env0 [1, 1, 1, 1, 1, 1]
    [0, 0, 500, 600, 700, 650] [0, 0, 0, 0, 0, 0]
    [none, none, none, none, none, none]
    [none, none, none, none, none, none] 30).2.1 (by decide)

/-- C4 counterexample: the strictly decreasing area series
`[400, 200, 100, 50]` (never RE-crossing the threshold, but crossing it
downward once after onset) has onset index 0 and flicker 1, not 0. -/
theorem c4_claim_counterexample :
    List.Pairwise (fun x y : ℤ => y < x) [400, 200, 100, 50] ∧
    _first_onset [400, 200, 100, 50] defaultThresholds.onset_area_px =
      some 0 ∧
    (extract_features_from_timelines env0 [10, 10, 10, 10]
        [400, 200, 100, 50] [1, 1, 1, 1] [none, none, none, none]
        [none, none, none, none] 30).flicker = 1 ∧
    (1 : ℚ) ≠ 0 := by
  refine ⟨by decide, by decide, ?_, by norm_num⟩
  norm_num [extract_features_from_timelines, flickerOf, postFrom,
    _first_onset, countTransitions, defaultThresholds]

/-! ### Kymograph lemmas -/

lemma foldl_min_mem (xs : List ℚ) (x : ℚ) : xs.foldl min x ∈ x :: xs := by
  induction xs generalizing x with
  | nil => simp
  | cons y ys ih =>
    simp only [List.foldl_cons]
    rcases List.mem_cons.mp (ih (min x y)) with h1 | h1
    · rcases min_choice x y with h | h
      · rw [h1, h]
        simp
      · rw [h1, h]
        simp
    · simp [List.mem_cons, h1]

lemma foldl_min_le (xs : List ℚ) (x : ℚ) : ∀ v ∈ x :: xs, xs.foldl min x ≤ v := by
  induction xs generalizing x with
  | nil => simp
  | cons y ys ih =>
    intro v hv
    simp only [List.foldl_cons]
    rcases List.mem_cons.mp hv with hvx | hv2
    · rw [hvx]
      exact le_trans (ih (min x y) (min x y) (by simp)) (min_le_left x y)
    rcases List.mem_cons.mp hv2 with hvy | hv3
    · rw [hvy]
      exact le_trans (ih (min x y) (min x y) (by simp)) (min_le_right x y)
    · exact ih (min x y) v (by simp [hv3])

lemma foldl_max_mem (xs : List ℚ) (x : ℚ) : xs.foldl max x ∈ x :: xs := by
  induction xs generalizing x with
  | nil => simp
  | cons y ys ih =>
    simp only [List.foldl_cons]
    rcases List.mem_cons.mp (ih (max x y)) with h1 | h1
    · rcases max_choice x y with h | h
      · rw [h1, h]
        simp
      · rw [h1, h]
        simp
    · simp [List.mem_cons, h1]

lemma le_foldl_max (xs : List ℚ) (x : ℚ) : ∀ v ∈ x :: xs, v ≤ xs.foldl max x := by
  induction xs generalizing x with
  | nil => simp
  | cons y ys ih =>
    intro v hv
    simp only [List.foldl_cons]
    rcases List.mem_cons.mp hv with hvx | hv2
    · rw [hvx]
      exact le_trans (le_max_left x y) (ih (max x y) (max x y) (by simp))
    rcases List.mem_cons.mp hv2 with hvy | hv3
    · rw [hvy]
      exact le_trans (le_max_right x y) (ih (max x y) (max x y) (by simp))
    · exact ih (max x y) v (by simp [hv3])

lemma rowMin_mem (r : List ℚ) (h : r ≠ []) : rowMin r ∈ r := by
  cases r with
  | nil => exact absurd rfl h
  | cons x xs => exact foldl_min_mem xs x

lemma rowMin_le (r : List ℚ) : ∀ v ∈ r, rowMin r ≤ v := by
  cases r with
  | nil => simp
  | cons x xs => exact fun v hv => foldl_min_le xs x v hv

lemma rowMax_mem (r : List ℚ) (h : r ≠ []) : rowMax r ∈ r := by
  cases r with
  | nil => exact absurd rfl h
  | cons x xs => exact foldl_max_mem xs x

lemma le_rowMax (r : List ℚ) : ∀ v ∈ r, v ≤ rowMax r := by
  cases r with
  | nil => simp
  | cons x xs => exact fun v hv => le_foldl_max xs x v hv

/-- Every entry of a normalised row is at most 255. -/
lemma normRow_le_255 (r : List ℚ) : ∀ x ∈ normRow r, x ≤ 255 := by
  intro x hx
  rcases List.mem_map.mp hx with ⟨v, hv, rfl⟩
  have hm : rowMin r ≤ v := rowMin_le r v hv
  have hM : v ≤ rowMax r := le_rowMax r v hv
  have hd : (0 : ℚ) < max (1 / 1000000) (rowMax r - rowMin r) :=
    lt_of_lt_of_le (by norm_num) (le_max_left _ _)
  have hratio : (v - rowMin r) / max (1 / 1000000) (rowMax r - rowMin r) ≤ 1 := by
    rw [div_le_one hd]
    exact le_trans (by linarith) (le_max_right _ _)
  have hq : (v - rowMin r) / max (1 / 1000000) (rowMax r - rowMin r) * 255 ≤ 255 := by
    nlinarith [hratio]
  unfold toU8
  have hfloor : ⌊(v - rowMin r) / max (1 / 1000000) (rowMax r - rowMin r) * 255⌋ ≤
      (255 : ℤ) := by
    calc ⌊(v - rowMin r) / max (1 / 1000000) (rowMax r - rowMin r) * 255⌋
        ≤ ⌊(255 : ℚ)⌋ := Int.floor_le_floor hq
      _ = 255 := by norm_num
  exact Int.toNat_le.mpr hfloor

/-- C7 (amended): the kymograph of a non-empty list of equal-width column
vectors is their row-wise normalisation: it has one row per input vector,
each of the input width; every row whose value range is at least the guard
`1e-6` of the normalisation denominator (in particular every non-constant
integer-valued row, as produced by the pipeline) attains 0, attains 255 and
stays within `[0, 255]`, so its minimum is 0 and its maximum is 255. A row
that is non-constant with range below `1e-6` normalises to a maximum below
255, which is the correction to the claim. Zero input rows give the fixed
10×10 zero image. -/
theorem c7_kymograph (cols : List (List ℚ)) (w : ℕ) :
    (cols = [] →
      _make_kymograph cols = List.replicate 10 (List.replicate 10 0)) ∧
    (cols ≠ [] → (∀ r ∈ cols, r.length = w) →
      _make_kymograph cols = cols.map normRow ∧
      (_make_kymograph cols).length = cols.length ∧
      (∀ row ∈ _make_kymograph cols, row.length = w) ∧
      (∀ r ∈ cols, 1 / 1000000 ≤ rowMax r - rowMin r →
        (0 : ℕ) ∈ normRow r ∧ (255 : ℕ) ∈ normRow r ∧
          ∀ x ∈ normRow r, x ≤ 255)) := by
  constructor
  · intro h
    simp [_make_kymograph, h]
  · intro hne hw
    have hmap : _make_kymograph cols = cols.map normRow := by
      simp [_make_kymograph, hne]
    refine ⟨hmap, by rw [hmap]; simp, ?_, ?_⟩
    · intro row hrow
      rw [hmap] at hrow
      rcases List.mem_map.mp hrow with ⟨r, hr, rfl⟩
      simpa [normRow] using hw r hr
    · intro r hr hrange
      have hrne : r ≠ [] := by
        intro h0
        rw [h0] at hrange
        norm_num [rowMax, rowMin] at hrange
      refine ⟨?_, ?_, normRow_le_255 r⟩
      · refine List.mem_map.mpr ⟨rowMin r, rowMin_mem r hrne, ?_⟩
        simp [toU8]
      · refine List.mem_map.mpr ⟨rowMax r, rowMax_mem r hrne, ?_⟩
        have hpos : (0 : ℚ) < rowMax r - rowMin r :=
          lt_of_lt_of_le (by norm_num) hrange
        have hm : max (1 / 1000000) (rowMax r - rowMin r) = rowMax r - rowMin r :=
          max_eq_right hrange
        rw [hm, div_self (ne_of_gt hpos)]
        norm_num [toU8]
        decide

/-- Witness for C7 (amended) at the single column vector `[0, 5]`. -/
theorem c7_witness :
    _make_kymograph [[(0 : ℚ), 5]] = [[(0 : ℚ), 5]].map normRow ∧
      (0 : ℕ) ∈ normRow [(0 : ℚ), 5] ∧ (255 : ℕ) ∈ normRow [(0 : ℚ), 5] := by
  have h := (c7_kymograph [[(0 : ℚ), 5]] 2).2 (by simp) (by simp)
  have hp := h.2.2.2 [(0 : ℚ), 5] (by simp)
    (by norm_num [rowMax, rowMin])
  exact ⟨h.1, hp.1, hp.2.1⟩

/-- C7 counterexample: the single-row input `[[0, 1e-7]]` is non-constant,
yet its normalised row is `[0, 25]` — the row maximum after normalisation is
25, not 255, because the range is below the `1e-6` guard. -/
theorem c7_claim_counterexample :
    rowMin [(0 : ℚ), 1 / 10000000] ≠ rowMax [(0 : ℚ), 1 / 10000000] ∧
      _make_kymograph [[(0 : ℚ), 1 / 10000000]] = [[0, 25]] ∧
      (25 : ℕ) ≠ 255 := by
  refine ⟨by norm_num [rowMin, rowMax], ?_, by norm_num⟩
  norm_num [_make_kymograph, normRow, rowMin, rowMax, toU8]
  decide

/-! ### Candidate selection lemmas -/

lemma survives_iff_filters (thr : Thresholds) (c : Candidate) :
    survives thr c ↔
      ¬(c.h < thr.min_height ∨ c.w < 2) ∧ ¬(c.area < thr.min_area) ∧
        ¬((c.h : ℚ) / max 1 (c.w : ℚ) < thr.min_aspect) := by
  simp [survives, not_or, not_lt, and_assoc]

lemma selectBest_none_no_survivor (thr : Thresholds) (roi_w : ℚ) :
    ∀ l : List Candidate, selectBest thr roi_w l = none →
      ∀ c ∈ l, ¬ survives thr c := by
  intro l
  induction l with
  | nil => simp
  | cons d rest ih =>
    intro h c hc
    by_cases hs : survives thr d
    · exfalso
      simp only [selectBest, if_pos hs] at h
      cases hsel : selectBest thr roi_w rest with
      | none =>
        rw [hsel] at h
        simp at h
      | some e =>
        rw [hsel] at h
        by_cases hlt : scoreOf roi_w d < scoreOf roi_w e <;> simp [hlt] at h
    · simp only [selectBest, if_neg hs] at h
      rcases List.mem_cons.mp hc with hcd | hcr
      · rw [hcd]
        exact hs
      · exact ih h c hcr

lemma selectBest_mem_surv (thr : Thresholds) (roi_w : ℚ) :
    ∀ (l : List Candidate) (c : Candidate), selectBest thr roi_w l = some c →
      c ∈ l ∧ survives thr c := by
  intro l
  induction l with
  | nil => intro c h; simp [selectBest] at h
  | cons d rest ih =>
    intro c h
    by_cases hs : survives thr d
    · simp only [selectBest, if_pos hs] at h
      cases hsel : selectBest thr roi_w rest with
      | none =>
        rw [hsel] at h
        simp at h
        rw [← h]
        exact ⟨by simp, hs⟩
      | some e =>
        rw [hsel] at h
        by_cases hlt : scoreOf roi_w d < scoreOf roi_w e
        · simp only [if_pos hlt, Option.some.injEq] at h
          rcases ih e hsel with ⟨hm, hsv⟩
          rw [← h]
          exact ⟨List.mem_cons_of_mem _ hm, hsv⟩
        · simp only [if_neg hlt, Option.some.injEq] at h
          rw [← h]
          exact ⟨by simp, hs⟩
    · simp only [selectBest, if_neg hs] at h
      rcases ih c h with ⟨hm, hsv⟩
      exact ⟨List.mem_cons_of_mem _ hm, hsv⟩

lemma selectBest_max (thr : Thresholds) (roi_w : ℚ) :
    ∀ (l : List Candidate) (c : Candidate), selectBest thr roi_w l = some c →
      ∀ d ∈ l, survives thr d → scoreOf roi_w d ≤ scoreOf roi_w c := by
  intro l
  induction l with
  | nil => intro c h; simp [selectBest] at h
  | cons a rest ih =>
    intro c h d hd hsd
    by_cases hs : survives thr a
    · simp only [selectBest, if_pos hs] at h
      cases hsel : selectBest thr roi_w rest with
      | none =>
        rw [hsel] at h
        simp at h
        rw [← h]
        rcases List.mem_cons.mp hd with hda | hdr
        · rw [hda]
        · exact absurd hsd (selectBest_none_no_survivor thr roi_w rest hsel d hdr)
      | some e =>
        rw [hsel] at h
        by_cases hlt : scoreOf roi_w a < scoreOf roi_w e
        · simp only [if_pos hlt, Option.some.injEq] at h
          rw [← h]
          rcases List.mem_cons.mp hd with hda | hdr
          · rw [hda]
            exact le_of_lt hlt
          · exact ih e hsel d hdr hsd
        · simp only [if_neg hlt, Option.some.injEq] at h
          rw [← h]
          rcases List.mem_cons.mp hd with hda | hdr
          · rw [hda]
          · exact le_trans (ih e hsel d hdr hsd) (not_lt.mp hlt)
    · simp only [selectBest, if_neg hs] at h
      rcases List.mem_cons.mp hd with hda | hdr
      · rw [hda] at hsd
        exact absurd hsd hs
      · exact ih c h d hdr hsd

lemma bestGo_from_some (thr : Thresholds) (roi_w : ℚ) :
    ∀ (l : List Candidate) (B : Candidate),
      (∀ c ∈ l, survives thr c → 0 < scoreOf roi_w c) →
      bestGo thr roi_w l (some B) (scoreOf roi_w B) =
        (match selectBest thr roi_w l with
          | none => some B
          | some c =>
              if scoreOf roi_w B < scoreOf roi_w c then some c else some B) := by
  intro l
  induction l with
  | nil => intro B hpos; simp [bestGo, selectBest]
  | cons c rest ih =>
    intro B hpos
    have hposr : ∀ d ∈ rest, survives thr d → 0 < scoreOf roi_w d :=
      fun d hd hs => hpos d (List.mem_cons_of_mem _ hd) hs
    by_cases hs : survives thr c
    · have hf := (survives_iff_filters thr c).mp hs
      unfold bestGo
      rw [if_neg hf.1, if_neg hf.2.1, if_neg hf.2.2]
      simp only [selectBest, if_pos hs]
      by_cases hlt : scoreOf roi_w B < scoreOf roi_w c
      · rw [if_pos hlt, ih c hposr]
        cases hsel : selectBest thr roi_w rest with
        | none => simp [hlt]
        | some e =>
          by_cases hce : scoreOf roi_w c < scoreOf roi_w e
          · simp [hce, if_pos (lt_trans hlt hce)]
          · simp [hce, hlt]
      · rw [if_neg hlt, ih B hposr]
        cases hsel : selectBest thr roi_w rest with
        | none => simp [hlt]
        | some e =>
          by_cases hce : scoreOf roi_w c < scoreOf roi_w e
          · simp [hce]
          · have h1 : scoreOf roi_w e ≤ scoreOf roi_w c := not_lt.mp hce
            have h2 : scoreOf roi_w c ≤ scoreOf roi_w B := not_lt.mp hlt
            simp [hce, hlt, not_lt.mpr (le_trans h1 h2)]
    · unfold bestGo
      simp only [selectBest, if_neg hs]
      split_ifs with h1 h2 h3 h4
      · exact ih B hposr
      · exact ih B hposr
      · exact ih B hposr
      · exact absurd ((survives_iff_filters thr c).mpr ⟨h1, h2, h3⟩) hs
      · exact absurd ((survives_iff_filters thr c).mpr ⟨h1, h2, h3⟩) hs

lemma bestGo_from_none (thr : Thresholds) (roi_w : ℚ) :
    ∀ l : List Candidate, (∀ c ∈ l, survives thr c → 0 < scoreOf roi_w c) →
      bestGo thr roi_w l none 0 = selectBest thr roi_w l := by
  intro l
  induction l with
  | nil => intro hpos; rfl
  | cons c rest ih =>
    intro hpos
    have hposr : ∀ d ∈ rest, survives thr d → 0 < scoreOf roi_w d :=
      fun d hd hs => hpos d (List.mem_cons_of_mem _ hd) hs
    by_cases hs : survives thr c
    · have hf := (survives_iff_filters thr c).mp hs
      unfold bestGo
      rw [if_neg hf.1, if_neg hf.2.1, if_neg hf.2.2]
      have hsc : (0 : ℚ) < scoreOf roi_w c := hpos c (by simp) hs
      rw [if_pos hsc, bestGo_from_some thr roi_w rest c hposr]
      simp only [selectBest, if_pos hs]
    · unfold bestGo
      simp only [selectBest, if_neg hs]
      split_ifs with h1 h2 h3 h4
      · exact ih hposr
      · exact ih hposr
      · exact ih hposr
      · exact absurd ((survives_iff_filters thr c).mpr ⟨h1, h2, h3⟩) hs
      · exact absurd ((survives_iff_filters thr c).mpr ⟨h1, h2, h3⟩) hs

/-- `scoreOf` unfolds to the area times the distance penalty. -/
lemma scoreOf_eq (roi_w : ℚ) (c : Candidate) :
    scoreOf roi_w c = (c.area : ℚ) * (1 - 7/10 * distOf roi_w c) := rfl

/-- The normalized horizontal distance of an in-region candidate lies in
`[0, 1]`. -/
lemma distOf_unit (roi_w : ℚ) (c : Candidate) (hx : (0 : ℤ) ≤ c.x)
    (hw : (0 : ℤ) ≤ c.w) (hxw : ((c.x : ℚ) + (c.w : ℚ)) ≤ roi_w) :
    0 ≤ distOf roi_w c ∧ distOf roi_w c ≤ 1 := by
  have hdpos : (0 : ℚ) < max 1 (roi_w / 2) :=
    lt_of_lt_of_le one_pos (le_max_left _ _)
  have hxq : (0 : ℚ) ≤ (c.x : ℚ) := by exact_mod_cast hx
  have hwq : (0 : ℚ) ≤ (c.w : ℚ) := by exact_mod_cast hw
  have hcx0 : 0 ≤ cxOf c := by
    unfold cxOf
    linarith
  have hcxw : cxOf c ≤ roi_w := by
    unfold cxOf
    linarith
  constructor
  · exact div_nonneg (abs_nonneg _) hdpos.le
  · unfold distOf
    rw [div_le_one hdpos]
    have habs : |cxOf c - roi_w / 2| ≤ roi_w / 2 := by
      rw [abs_le]
      constructor <;> linarith
    exact le_trans habs (le_max_right _ _)

/-- Every surviving in-region candidate has a strictly positive score when
the minimum area threshold is at least one pixel. -/
lemma scoreOf_pos_of_survives (thr : Thresholds) (roi_w : ℚ) (c : Candidate)
    (hmin : 1 ≤ thr.min_area) (hx : (0 : ℤ) ≤ c.x)
    (hxw : ((c.x : ℚ) + (c.w : ℚ)) ≤ roi_w) (hs : survives thr c) :
    0 < scoreOf roi_w c := by
  have hw : (0 : ℤ) ≤ c.w := le_trans (by norm_num) hs.2.1
  rcases distOf_unit roi_w c hx hw hxw with ⟨hd0, hd1⟩
  have harea : (1 : ℚ) ≤ (c.area : ℚ) := by
    exact_mod_cast le_trans hmin hs.2.2.1
  have hfac : (0 : ℚ) < 1 - 7/10 * distOf roi_w c := by linarith
  rw [scoreOf_eq]
  exact mul_pos (lt_of_lt_of_le one_pos harea) hfac

/-- C5: under the facts true of OpenCV contour geometry — every candidate's
bounding box lies inside the region (so `0 ≤ x` and `x + w ≤ roi_w`) — and
with the configured positive minimum area (default 150), `_best_component`
equals the specification selection `selectBest`: among candidates surviving
the size/shape filters it returns the first candidate (in enumeration order,
which settles equal-score ties) attaining the maximal score
`area * (1 - 0.7 * d)`; the normalized distance `d` of every surviving
candidate lies in `[0, 1]`; and whenever any survivor exists, a candidate is
returned. -/
theorem c5_best_component (contours : List Candidate) (roi_w : ℚ)
    (thr : Thresholds) (hmin : 1 ≤ thr.min_area)
    (hins : ∀ c ∈ contours, (0 : ℤ) ≤ c.x ∧ ((c.x : ℚ) + (c.w : ℚ)) ≤ roi_w) :
    _best_component contours roi_w thr = selectBest thr roi_w contours ∧
      (∀ c ∈ contours, survives thr c →
        0 ≤ distOf roi_w c ∧ distOf roi_w c ≤ 1) ∧
      (∀ c, selectBest thr roi_w contours = some c →
        c ∈ contours ∧ survives thr c ∧
          ∀ d ∈ contours, survives thr d →
            scoreOf roi_w d ≤ scoreOf roi_w c) ∧
      ((∃ c ∈ contours, survives thr c) →
        ∃ b, selectBest thr roi_w contours = some b) := by
  have hpos : ∀ c ∈ contours, survives thr c → 0 < scoreOf roi_w c :=
    fun c hc hs =>
      scoreOf_pos_of_survives thr roi_w c hmin (hins c hc).1 (hins c hc).2 hs
  refine ⟨bestGo_from_none thr roi_w contours hpos, ?_, ?_, ?_⟩
  · intro c hc hs
    have hw : (0 : ℤ) ≤ c.w := le_trans (by norm_num) hs.2.1
    exact distOf_unit roi_w c (hins c hc).1 hw (hins c hc).2
  · intro c hsel
    rcases selectBest_mem_surv thr roi_w contours c hsel with ⟨hm, hs⟩
    exact ⟨hm, hs, selectBest_max thr roi_w contours c hsel⟩
  · rintro ⟨c, hc, hs⟩
    cases hsel : selectBest thr roi_w contours with
    | none =>
      exact absurd hs (selectBest_none_no_survivor thr roi_w contours hsel c hc)
    | some b => exact ⟨b, rfl⟩

/-- Witness for C5 at a single concrete surviving candidate in a region of
width 20. -/
theorem c5_witness :
    _best_component [⟨0, 0, 10, 40, 200⟩] 20 defaultThresholds =
      selectBest defaultThresholds 20 [⟨0, 0, 10, 40, 200⟩] ∧
      selectBest defaultThresholds 20 [⟨0, 0, 10, 40, 200⟩] =
        some ⟨0, 0, 10, 40, 200⟩ := by
  have h := c5_best_component [⟨0, 0, 10, 40, 200⟩] 20 defaultThresholds
    (by norm_num [defaultThresholds])
    (by
      intro c hc
      simp only [List.mem_singleton] at hc
      subst hc
      norm_num)
  refine ⟨h.1, ?_⟩
  rcases h.2.2.2 ⟨⟨0, 0, 10, 40, 200⟩, by simp, by
    norm_num [survives, defaultThresholds]⟩ with ⟨b, hb⟩
  rcases selectBest_mem_surv defaultThresholds 20 _ b hb with ⟨hm, _⟩
  simp only [List.mem_singleton] at hm
  rw [hb, hm]

/-! ### Fresh-segmenter and pipeline lemmas -/

/-- Dilating an all-unset mask leaves it all-unset. -/
lemma dilate3x5_empty (m : Mask) (h : ∀ i j, m.pix i j = false) :
    ∀ i j, (dilate3x5 m).pix i j = false := by
  intro i j
  simp [dilate3x5, h]

/-- On a fresh segmenter (no stored region) or when the stored region's
dimensions differ from the current frame's, the flow field is all-zero and
with a non-negative motion threshold the stream mask is entirely unset. -/
lemma streamMask_fresh_empty (ext : Vision) (thr : Thresholds) (st : SegState)
    (f : RoiFrame) (hthr : 0 ≤ thr.flow_mag_thresh)
    (hfresh : st.prev = none ∨
      ∃ p, st.prev = some p ∧ (p.h ≠ f.h ∨ p.w ≠ f.w)) :
    ∀ i j, (streamMask ext thr st f).pix i j = false := by
  have hdec : (decide (thr.flow_mag_thresh < (0 : ℚ))) = false :=
    decide_eq_false (not_lt.mpr hthr)
  intro i j
  rcases hfresh with hnone | ⟨p, hp, hne⟩
  · simp only [streamMask, hnone]
    rw [dilate3x5_empty _ (fun a b => hdec)]
    simp
  · have hcond : ¬(p.h = f.h ∧ p.w = f.w) := by tauto
    simp only [streamMask, hp, if_neg hcond]
    rw [dilate3x5_empty _ (fun a b => hdec)]
    simp

/-- C10: with a faithful contour extractor (an all-unset mask has no
external contours) and a non-negative motion threshold, any `segment` call
on a fresh segmenter — or one whose stored region dimensions changed —
produces an entirely unset foreground mask and the not-found statistics
record (`stream_found = false`, area 0); consequently, for a run started on
a fresh segmenter, the first entry of the area timeline (when any frame
decodes) is 0, and the onset index can never be 0. -/
theorem c10_first_call_not_found (ext : Vision) (thr : Thresholds)
    (hfc : ∀ m : Mask, (∀ i j, m.pix i j = false) → ext.findContours m = [])
    (hthr : 0 ≤ thr.flow_mag_thresh) :
    (∀ st f, (st.prev = none ∨
        ∃ p, st.prev = some p ∧ (p.h ≠ f.h ∨ p.w ≠ f.w)) →
      (∀ i j, (streamMask ext thr st f).pix i j = false) ∧
        (segment ext thr st f).1 = notFoundStats) ∧
    (∀ debug files,
      ((accumulate ext thr debug files ⟨none⟩).1.area ≠ [] →
        (accumulate ext thr debug files ⟨none⟩).1.area.head? = some 0) ∧
      _first_onset (accumulate ext thr debug files ⟨none⟩).1.area
        defaultThresholds.onset_area_px ≠ some 0) := by
  have hseg : ∀ st f, (st.prev = none ∨
      ∃ p, st.prev = some p ∧ (p.h ≠ f.h ∨ p.w ≠ f.w)) →
      (∀ i j, (streamMask ext thr st f).pix i j = false) ∧
        (segment ext thr st f).1 = notFoundStats := by
    intro st f hfresh
    have hmask := streamMask_fresh_empty ext thr st f hthr hfresh
    refine ⟨hmask, ?_⟩
    have hcont : ext.findContours (streamMask ext thr st f) = [] := hfc _ hmask
    simp [segment, hcont, _best_component, bestGo]
  refine ⟨hseg, ?_⟩
  intro debug files
  induction files with
  | nil =>
    constructor
    · intro h
      exact absurd rfl h
    · simp [accumulate, _first_onset]
  | cons o rest ih =>
    cases o with
    | none => simpa [accumulate] using ih
    | some f =>
      have hstats : (segment ext thr ⟨none⟩ f).1 = notFoundStats :=
        (hseg ⟨none⟩ f (Or.inl rfl)).2
      constructor
      · intro _
        simp [accumulate, hstats, notFoundStats]
      · simp only [accumulate, hstats, notFoundStats]
        have h300 : ¬ (defaultThresholds.onset_area_px ≤ (0 : ℤ)) := by decide
        simp only [_first_onset, if_neg h300]
        cases _first_onset
            (accumulate ext thr debug rest (segment ext thr ⟨none⟩ f).2.2).1.area
            defaultThresholds.onset_area_px with
        | none => simp
        | some k => simp

/-- Witness for C10 at a concrete 1×1 frame, the concrete environment
`ext0` (whose contour list is always empty) and the default thresholds. -/
theorem c10_witness :
    (segment ext0 defaultThresholds ⟨none⟩
        ⟨1, 1, fun _ _ => 0, fun _ _ => ⟨0, 0, 0⟩⟩).1 = notFoundStats ∧
      _first_onset
        (accumulate ext0 defaultThresholds ⟨true, 30, true⟩
          [some ⟨1, 1, fun _ _ => 0, fun _ _ => ⟨0, 0, 0⟩⟩] ⟨none⟩).1.area
        defaultThresholds.onset_area_px ≠ some 0 := by
  have h := c10_first_call_not_found ext0 defaultThresholds
    (fun m _ => rfl) (by norm_num [defaultThresholds])
  exact ⟨(h.1 ⟨none⟩ _ (Or.inl rfl)).2,
    (h.2 ⟨true, 30, true⟩ [some ⟨1, 1, fun _ _ => 0, fun _ _ => ⟨0, 0, 0⟩⟩]).2⟩

/-- A frame listing all of whose entries fail to decode accumulates to the
empty timelines, whatever the starting segmenter state. -/
lemma accumulate_all_none (ext : Vision) (thr : Thresholds)
    (debug : DebugConfig) :
    ∀ (files : List (Option RoiFrame)) (st : SegState),
      (∀ o ∈ files, o = none) →
      (accumulate ext thr debug files st).1 = ⟨[], [], [], [], [], []⟩ := by
  intro files
  induction files with
  | nil =>
    intro st _
    rfl
  | cons o rest ih =>
    intro st h
    have ho : o = none := h o (by simp)
    subst ho
    simp only [accumulate]
    exact ih st fun o2 ho2 => h o2 (List.mem_cons_of_mem _ ho2)

/-- C2 (amended): the pipeline raises the hard
`FileNotFoundError("No .jpg frames found…")` EXACTLY when the frame-file
listing is empty; and for EVERY non-empty listing whose files all fail to
decode (zero frames decode), it does not fail — it returns an ordinary
feature vector, the one computed from the empty timelines, with its rule
label. -/
theorem c2_error_iff_no_files (ext : Vision) (env : NumEnv)
    (files : List (Option RoiFrame)) (fps : ℤ) (max_seconds : ℚ)
    (thr : Thresholds) (debug : DebugConfig) :
    (process_frames_folder ext env files fps max_seconds thr debug =
        Except.error "No .jpg frames found" ↔ files = []) ∧
      ((∀ o ∈ files, o = none) → files ≠ [] →
        process_frames_folder ext env files fps max_seconds thr debug =
          Except.ok
            (extract_features_from_timelines env [] [] [] [] [] fps,
              simple_rule_classifier
                (extract_features_from_timelines env [] [] [] [] [] fps))) := by
  constructor
  · constructor
    · intro h
      by_contra hne
      have hie : files.isEmpty = false := by
        cases files with
        | nil => exact absurd rfl hne
        | cons a l => rfl
      unfold process_frames_folder at h
      rw [hie] at h
      simp at h
    · intro h
      subst h
      rfl
  · intro hall hne
    have hie : files.isEmpty = false := by
      cases files with
      | nil => exact absurd rfl hne
      | cons a l => rfl
    have hacc := accumulate_all_none ext thr debug
      (files.take (Int.toNat ⌊(fps : ℚ) * max_seconds⌋)) ⟨none⟩
      (fun o ho => hall o (List.take_subset _ _ ho))
    unfold process_frames_folder
    rw [hie]
    simp [hacc]

/-- Witness for C2 (amended): the empty listing errors, and the one-file
listing whose file fails to decode returns the empty-timeline feature
vector. -/
theorem c2_witness :
    process_frames_folder ext0 env0 [] 60 7 defaultThresholds
        ⟨true, 30, true⟩ = Except.error "No .jpg frames found" ∧
      process_frames_folder ext0 env0 [none] 60 7 defaultThresholds
          ⟨true, 30, true⟩ =
        Except.ok
          (extract_features_from_timelines env0 [] [] [] [] [] 60,
            simple_rule_classifier
              (extract_features_from_timelines env0 [] [] [] [] [] 60)) := by
  constructor
  · exact (c2_error_iff_no_files ext0 env0 [] 60 7 defaultThresholds
      ⟨true, 30, true⟩).1.mpr rfl
  · exact (c2_error_iff_no_files ext0 env0 [none] 60 7 defaultThresholds
      ⟨true, 30, true⟩).2 (by simp) (by simp)

/-- C2 counterexample: one frame file exists but fails to decode (so zero
frames decode); the pipeline does NOT fail — it returns an ordinary `ok`
feature vector (computed from the empty timelines) with a rule label,
contradicting the claimed hard "no usable frames" failure for this case. -/
theorem c2_claim_counterexample :
    process_frames_folder ext0 env0 [none] 60 7 defaultThresholds
        ⟨true, 30, true⟩ =
      Except.ok
        (extract_features_from_timelines env0 [] [] [] [] [] 60,
          simple_rule_classifier
            (extract_features_from_timelines env0 [] [] [] [] [] 60)) := by
  have htake : ([none] : List (Option RoiFrame)).take
      (Int.toNat ⌊((60 : ℤ) : ℚ) * 7⌋) = [none] :=
    List.take_of_length_le (by norm_num)
  simp only [process_frames_folder]
  rw [htake]
  simp [accumulate]

end EspressoFlow
